import Mathlib

/-!
Verification of the synthesizAR data-assembly pipeline.

This file gives a shallow embedding, in Lean 4, of the core data-assembly
pipeline of the synthesizAR repository and proves the specification claims
about it.  The embedded code comes from:

* `synthesizAR/observe.py` — `ObserverSerial._interpolate_loops`,
  `ObserverSerial.flatten_detector_counts`,
  `ObserverParallel.flatten_detector_counts`,
  `ObserverSerial.build_detector_files`;
* `synthesizAR/instruments/base.py` — `InstrumentBase.interpolate`,
  `InstrumentBase.commit`, `InstrumentBase.write_to_hdf5`,
  `InstrumentBase.build_detector_file`,
  `InstrumentBase.generic_2d_histogram`,
  `InstrumentBase.make_detector_array`, `InstrumentBase.make_fits_header`;
* `synthesizAR/loop.py` — the `Loop` container (field-aligned coordinate,
  time, quantity arrays).

Real-valued sample data is modelled with exact rationals; machine floats
only enter through scipy/numpy routines whose algebraic behaviour
(linear interpolation, histogram binning, cumulative sums) is embedded
directly.
-/

namespace SynthesizAR

/-- Embedding of numpy.linspace: evenly spaced samples from a to b inclusive.
For n ≥ 2 the i-th point is a + (b-a)·i/(n-1); for n = 1 numpy returns [a];
for n = 0 an empty array. -/
def linspace (a b : ℚ) (n : ℕ) : List ℚ :=
  if n = 0 then []
  else if n = 1 then [a]
  else (List.range n).map (fun i : ℕ => a + (b - a) * (i : ℚ) / ((n : ℚ) - 1))

theorem linspace_length (a b : ℚ) (n : ℕ) : (linspace a b n).length = n := by
  unfold linspace
  split
  · simp [*]
  · split
    · simp [*]
    · exact (List.length_map _ _).trans (List.length_range n)

/-!
### Curve resampling (`ObserverSerial._interpolate_loops`)

Each loop carries its field-aligned coordinate samples (the arc-length
values `loop.field_aligned_coordinate`), its total arc length
`loop.length` (the sum of the segment lengths, a positive real that we
carry as an exact rational), and the smooth interpolant fitted through
its native 3-D positions by `scipy.interpolate.splprep` (an external
routine, carried as an abstract function from the spline parameter in
[0,1] to a 3-D point).
-/

structure LoopGeom where
  sCoord : List ℚ
  length : ℚ
  spline : ℚ → ℚ × ℚ × ℚ

/-- n_interp = int(np.ceil((loop.length/ds).decompose())). -/
def nInterp (ds : ℚ) (loop : LoopGeom) : ℕ :=
  (⌈loop.length / ds⌉).toNat

/-- interpolated_s = np.linspace(s[0], s[-1], n_interp). -/
def interpolatedS (ds : ℚ) (loop : LoopGeom) : List ℚ :=
  linspace (loop.sCoord.headD 0) (loop.sCoord.getLastD 0) (nInterp ds loop)

/-- splev(np.linspace(0, 1, n_interp), nots): the fitted spline evaluated at
n_interp evenly spaced parameter values in [0,1]. -/
def resampledCoords (ds : ℚ) (loop : LoopGeom) : List (ℚ × ℚ × ℚ) :=
  (linspace 0 1 (nInterp ds loop)).map loop.spline

/-- total_coordinates = np.vstack(per-loop resampled coordinate blocks). -/
def totalCoordinates (ds : ℚ) (loops : List LoopGeom) : List (ℚ × ℚ × ℚ) :=
  (loops.map (resampledCoords ds)).flatten

/-- The per-loop resampled sample counts, in curve order. -/
def sampleCounts (ds : ℚ) (loops : List LoopGeom) : List ℕ :=
  loops.map (nInterp ds)

/-- The store's total column count N = Σ nᵢ. -/
def totalN (ds : ℚ) (loops : List LoopGeom) : ℕ :=
  (sampleCounts ds loops).sum

/-- offsetᵢ: the cumulative sum of the preceding loops' sample counts.
In the serial scheduler this is the running value of start_index when
loop i is reached; in the parallel scheduler it is start_indices[i]. -/
def offsetOf (ds : ℚ) (loops : List LoopGeom) (i : ℕ) : ℕ :=
  ((sampleCounts ds loops).take i).sum

theorem resampledCoords_length (ds : ℚ) (loop : LoopGeom) :
    (resampledCoords ds loop).length = nInterp ds loop := by
  simp [resampledCoords, linspace_length]

/-- Helper: sums of prefixes of a width list are monotone. -/
theorem take_sum_mono (ws : List ℕ) {a b : ℕ} (h : a ≤ b) :
    (ws.take a).sum ≤ (ws.take b).sum := by
  induction ws generalizing a b with
  | nil => simp
  | cons w ws ih =>
    cases a with
    | zero => simp
    | succ a =>
      cases b with
      | zero => omega
      | succ b =>
        simp only [List.take_succ_cons, List.sum_cons]
        exact Nat.add_le_add_left (ih (Nat.le_of_succ_le_succ h)) w

/-- Helper: the sum of the first i+1 widths is the sum of the first i widths
plus the i-th width, whenever i is in range. -/
theorem take_sum_succ (ws : List ℕ) {i : ℕ} (h : i < ws.length) :
    (ws.take (i + 1)).sum = (ws.take i).sum + ws.getD i 0 := by
  induction ws generalizing i with
  | nil => simp at h
  | cons w ws ih =>
    cases i with
    | zero => simp
    | succ i =>
      simp only [List.take_succ_cons, List.sum_cons, List.getD_cons_succ]
      rw [ih (by simpa using h)]
      omega

/-- Every k in [0, Σ widths) lies in exactly one window
[prefix-sum i, prefix-sum i + widths[i]). -/
theorem window_partition (ws : List ℕ) (k : ℕ) (hk : k < ws.sum) :
    ∃! i, i < ws.length ∧
      (ws.take i).sum ≤ k ∧ k < (ws.take i).sum + ws.getD i 0 := by
  have hex : ∃ i, i < ws.length ∧
      (ws.take i).sum ≤ k ∧ k < (ws.take i).sum + ws.getD i 0 := by
    induction ws generalizing k with
    | nil => simp at hk
    | cons w ws ih =>
      by_cases hw : k < w
      · exact ⟨0, by simp, by simp, by simpa using hw⟩
      · push_neg at hw
        have hk2 : k - w < ws.sum := by
          simp only [List.sum_cons] at hk
          omega
        obtain ⟨i, hi, hlo, hhi⟩ := ih (k - w) hk2
        refine ⟨i + 1, by simpa using hi, ?_, ?_⟩
        · simp only [List.take_succ_cons, List.sum_cons]
          omega
        · simp only [List.take_succ_cons, List.sum_cons, List.getD_cons_succ]
          omega
  obtain ⟨i, hi⟩ := hex
  refine ⟨i, hi, ?_⟩
  intro j hj
  by_contra hne
  rcases Nat.lt_or_ge j i with hlt | hge
  · have h1 : (ws.take (j + 1)).sum ≤ (ws.take i).sum :=
      take_sum_mono ws hlt
    rw [take_sum_succ ws hj.1] at h1
    omega
  · have hlt : i < j := lt_of_le_of_ne hge (fun h => hne h.symm)
    have h1 : (ws.take (i + 1)).sum ≤ (ws.take j).sum :=
      take_sum_mono ws hlt
    rw [take_sum_succ ws hi.1] at h1
    omega

/-- C1: resampling gives curve i a sample count nᵢ = ceil(Lᵢ/ds); the
concatenated global position array has N = Σ nᵢ rows; and the per-curve
offset windows [offsetᵢ, offsetᵢ + nᵢ), with offsetᵢ the cumulative sum of
the preceding curves' counts, partition [0, N) with no gaps and no
overlaps. -/
theorem C1_resampling_partition (ds : ℚ) (loops : List LoopGeom) :
    sampleCounts ds loops = loops.map (fun l => (⌈l.length / ds⌉).toNat)
    ∧ (totalCoordinates ds loops).length = totalN ds loops
    ∧ ∀ k, k < totalN ds loops →
        ∃! i, i < loops.length ∧
          offsetOf ds loops i ≤ k ∧
          k < offsetOf ds loops i + (sampleCounts ds loops).getD i 0 := by
  refine ⟨rfl, ?_, ?_⟩
  · rw [totalCoordinates, List.length_flatten, List.map_map]
    have : (List.length ∘ resampledCoords ds) = nInterp ds := by
      funext l
      exact resampledCoords_length ds l
    rw [this]
    rfl
  · intro k hk
    have h := window_partition (sampleCounts ds loops) k hk
    simpa [sampleCounts, offsetOf] using h

/-- Witness for C1: two loops of arc length 2 and 3 at ds = 1 give counts
[2, 3], N = 5, and global sample 3 falls in exactly one window (the second
loop's window [2, 5)). -/
theorem C1_resampling_partition_witness :
    3 < totalN 1 [⟨[0, 2], 2, fun t => (t, t, t)⟩, ⟨[0, 3], 3, fun t => (t, 0, 0)⟩]
    ∧ ∃! i, i < ([⟨[0, 2], 2, fun t => (t, t, t)⟩,
                  ⟨[0, 3], 3, fun t => (t, 0, 0)⟩] : List LoopGeom).length
        ∧ offsetOf 1 [⟨[0, 2], 2, fun t => (t, t, t)⟩, ⟨[0, 3], 3, fun t => (t, 0, 0)⟩] i ≤ 3
        ∧ 3 < offsetOf 1 [⟨[0, 2], 2, fun t => (t, t, t)⟩, ⟨[0, 3], 3, fun t => (t, 0, 0)⟩] i
              + (sampleCounts 1 [⟨[0, 2], 2, fun t => (t, t, t)⟩,
                                 ⟨[0, 3], 3, fun t => (t, 0, 0)⟩]).getD i 0 := by
  have hk : 3 < totalN 1 [⟨[0, 2], 2, fun t => (t, t, t)⟩, ⟨[0, 3], 3, fun t => (t, 0, 0)⟩] := by
    norm_num [totalN, sampleCounts, nInterp]
    decide
  exact ⟨hk, (C1_resampling_partition 1 _).2.2 3 hk⟩

/-!
### Interpolation (`InstrumentBase.interpolate`)

scipy.interpolate.interp1d with kind linear: piecewise-linear through the
sample points; with fill_value extrapolate (the temporal step) the first
and last segments extend beyond the data range.  The spatial step never
evaluates outside the knot range in the pipeline, and on the first or
last segment the same linear formula applies, so one embedding serves
both.
-/

/-- Piecewise-linear interpolant through the points pts (strictly
increasing abscissae), evaluated at t.  Left of the second knot, or on
the last segment, the segment's linear formula applies (which also
linearly extrapolates outside the data range, as interp1d does with
fill_value extrapolate). -/
def interpLinear : List (ℚ × ℚ) → ℚ → ℚ
  | [], _ => 0
  | [(_, y0)], _ => y0
  | (x0, y0) :: (x1, y1) :: rest, t =>
    if t ≤ x1 ∨ rest = [] then y0 + (y1 - y0) * (t - x0) / (x1 - x0)
    else interpLinear ((x1, y1) :: rest) t

/-- A loop quantity as stored in the model results: an array of shape
(T_loop, n_s) (time rows, field-aligned-coordinate columns) carrying a
physical unit. -/
structure QuantityData where
  rows : List (List ℚ)
  unit : String

/-- The part of a Loop that `InstrumentBase.interpolate` reads: the
field-aligned coordinate, the simulation time, and the named quantity
arrays (getattr(loop, q)). -/
structure LoopHydro where
  sCoord : List ℚ
  time : List ℚ
  quantity : String → QuantityData

/-- Failure modes of an interpolation task.  The single-time-sample curve
whose time does not equal the target grid trips the assertion in
`InstrumentBase.interpolate`; the spec names this StaticCaseMismatch. -/
inductive InterpError where
  | staticCaseMismatch
deriving DecidableEq

/-- The spatial step: y_s = interp1d(loop.field_aligned_coordinate, y,
axis=1, kind=linear)(interp_s), i.e. each time row is linearly
interpolated at the target local positions. -/
def spatialResample (sCoord : List ℚ) (rows : List (List ℚ)) (interpS : List ℚ) :
    List (List ℚ) :=
  rows.map (fun row => interpS.map (fun t => interpLinear (sCoord.zip row) t))

/-- The temporal step: interp1d(loop.time, y_s, axis=0, kind=linear,
fill_value=extrapolate) evaluated on the instrument's observing time. -/
def temporalResample (times : List ℚ) (rows : List (List ℚ)) (grid : List ℚ) :
    List (List ℚ) :=
  grid.map (fun t =>
    (List.range (rows.headD []).length).map
      (fun j => interpLinear (times.zip (rows.map (fun r => r.getD j 0))) t))

/-- Embedding of `InstrumentBase.interpolate(y, loop, interp_s)` with the
instrument's observing time passed explicitly.  The static case
(loop.time of shape (1,)) skips temporal interpolation but asserts
np.all(loop.time == observing_time); numpy broadcasts the single time
value against the whole grid, so the assertion is that every grid entry
equals it. -/
def interpolate (obsTime : List ℚ) (loop : LoopHydro) (q : String) (interpS : List ℚ) :
    Except InterpError QuantityData :=
  let y := loop.quantity q
  let yS := spatialResample loop.sCoord y.rows interpS
  match loop.time with
  | [t] =>
    if obsTime.all (fun x => decide (x = t)) then
      .ok ⟨yS, y.unit⟩
    else
      .error .staticCaseMismatch
  | _ => .ok ⟨temporalResample loop.time yS obsTime, y.unit⟩

/-- Linear interpolation returns the data value exactly at each knot. -/
theorem interpLinear_at_knot :
    ∀ (pts : List (ℚ × ℚ)),
      List.Pairwise (fun p q : ℚ × ℚ => p.1 < q.1) pts →
      ∀ p ∈ pts, interpLinear pts p.1 = p.2
  | [], _, p, hp => absurd hp (List.not_mem_nil p)
  | [(x0, y0)], _, p, hp => by
    rcases List.mem_singleton.mp hp with rfl
    rfl
  | (x0, y0) :: (x1, y1) :: rest, hpw, p, hp => by
    have hx01 : x0 < x1 := (List.pairwise_cons.mp hpw).1 (x1, y1) (List.mem_cons_self _ _)
    rcases hp with _ | ⟨_, hp⟩
    · show interpLinear ((x0, y0) :: (x1, y1) :: rest) x0 = y0
      rw [interpLinear, if_pos (Or.inl (le_of_lt hx01))]
      rw [sub_self, mul_zero, zero_div, add_zero]
    · rcases hp with _ | ⟨_, hp⟩
      · show interpLinear ((x0, y0) :: (x1, y1) :: rest) x1 = y1
        rw [interpLinear, if_pos (Or.inl (le_refl x1))]
        rw [mul_div_assoc, div_self (sub_ne_zero.mpr (ne_of_gt hx01)), mul_one]
        ring
      · have htail : List.Pairwise (fun p q : ℚ × ℚ => p.1 < q.1) ((x1, y1) :: rest) :=
          (List.pairwise_cons.mp hpw).2
        have hx1p : x1 < p.1 :=
          (List.pairwise_cons.mp htail).1 p hp
        have hrest : rest ≠ [] := List.ne_nil_of_mem hp
        show interpLinear ((x0, y0) :: (x1, y1) :: rest) p.1 = p.2
        rw [interpLinear, if_neg (by push_neg; exact ⟨hx1p, hrest⟩)]
        · exact interpLinear_at_knot ((x1, y1) :: rest) htail p (List.mem_cons_of_mem _ hp)

/-- Evaluating the spatial interpolant of one row at the row's own knots
returns the row unchanged. -/
theorem interpRow_identity (s row : List ℚ) (hlen : row.length = s.length)
    (hs : List.Pairwise (fun a b : ℚ => a < b) s) :
    s.map (fun t => interpLinear (s.zip row) t) = row := by
  apply List.ext_getElem
  · simp [hlen]
  · intro i h1 h2
    rw [List.getElem_map]
    have hmemzip : (s[i], row[i]) ∈ s.zip row := by
      have hz : (s.zip row)[i]? = some (s[i], row[i]) := by
        rw [List.getElem?_zip_eq_some]
        exact ⟨List.getElem?_eq_getElem (by simpa using h1),
               List.getElem?_eq_getElem h2⟩
      exact List.getElem?_mem hz
    have hpw : List.Pairwise (fun p q : ℚ × ℚ => p.1 < q.1) (s.zip row) := by
      have hfst : (s.zip row).map Prod.fst = s :=
        List.map_fst_zip s row (le_of_eq hlen.symm)
      have := hfst ▸ hs
      exact (List.pairwise_map.mp this).imp (fun h => h)
    exact interpLinear_at_knot (s.zip row) hpw (s[i], row[i]) hmemzip

/-- Resampling a quantity at the curve's own field-aligned coordinate
returns its rows unchanged. -/
theorem spatialResample_self (s : List ℚ) (rows : List (List ℚ))
    (hs : List.Pairwise (fun a b : ℚ => a < b) s)
    (hrows : ∀ row ∈ rows, row.length = s.length) :
    spatialResample s rows s = rows := by
  unfold spatialResample
  have : ∀ row ∈ rows, (s.map fun t => interpLinear (s.zip row) t) = row := by
    intro row hrow
    exact interpRow_identity s row (hrows row hrow) hs
  calc rows.map (fun row => s.map fun t => interpLinear (s.zip row) t)
      = rows.map id := List.map_congr_left this
    _ = rows := List.map_id rows

/-- On a strictly increasing nonempty grid, the broadcast equality test
np.all(loop.time == grid) with a single time value t holds exactly when
the grid is the one-element grid [t]. -/
theorem all_eq_iff_eq_singleton (grid : List ℚ) (t : ℚ)
    (hsort : List.Pairwise (fun a b : ℚ => a < b) grid) (hne : grid ≠ []) :
    (grid.all (fun x => decide (x = t)) = true ↔ grid = [t]) := by
  match grid with
  | [] => exact absurd rfl hne
  | [x] => simp
  | x :: y :: rest =>
    have hxy : x < y := (List.pairwise_cons.mp hsort).1 y (List.mem_cons_self _ _)
    constructor
    · intro h
      simp only [List.all_cons, Bool.and_eq_true, decide_eq_true_eq] at h
      obtain ⟨hx, hy, _⟩ := h
      exact absurd (hx.trans hy.symm) (ne_of_lt hxy)
    · intro h
      simp at h

/-- C6: for a curve with exactly one time sample, interpolation performs no
temporal interpolation; given the instrument's observing grid (strictly
increasing since it comes from np.arange with positive cadence, and
nonempty), the task succeeds exactly when the grid is the one-element
grid holding the curve's single time value, and otherwise fails with
StaticCaseMismatch. -/
theorem C6_static_case_check (loop : LoopHydro) (q : String) (t : ℚ)
    (grid interpS : List ℚ) (htime : loop.time = [t])
    (hsort : List.Pairwise (fun a b : ℚ => a < b) grid) (hne : grid ≠ []) :
    (grid = [t] → interpolate grid loop q interpS =
      .ok ⟨spatialResample loop.sCoord (loop.quantity q).rows interpS,
           (loop.quantity q).unit⟩)
    ∧ (grid ≠ [t] → interpolate grid loop q interpS = .error .staticCaseMismatch) := by
  constructor
  · intro hgrid
    subst hgrid
    simp only [interpolate, htime]
    rw [if_pos]
    simp
  · intro hgrid
    simp only [interpolate, htime]
    rw [if_neg]
    intro h
    exact hgrid ((all_eq_iff_eq_singleton grid t hsort hne).mp h)

/-- Witness for C6: a static curve with time [5]; the grid [4] mismatches
and fails with StaticCaseMismatch, while the grid [5] succeeds with the
spatially resampled rows. -/
theorem C6_static_case_check_witness :
    interpolate [4] ⟨[0, 1], [5], fun _ => ⟨[[1, 2]], "K"⟩⟩ "density" [0, 1]
      = .error .staticCaseMismatch
    ∧ interpolate [5] ⟨[0, 1], [5], fun _ => ⟨[[1, 2]], "K"⟩⟩ "density" [0, 1]
      = .ok ⟨spatialResample [0, 1] [[1, 2]] [0, 1], "K"⟩ :=
  ⟨(C6_static_case_check ⟨[0, 1], [5], fun _ => ⟨[[1, 2]], "K"⟩⟩ "density" 5 [4] [0, 1]
      rfl (by decide) (by decide)).2 (by decide),
   (C6_static_case_check ⟨[0, 1], [5], fun _ => ⟨[[1, 2]], "K"⟩⟩ "density" 5 [5] [0, 1]
      rfl (by decide) (by decide)).1 rfl⟩

/-- C7: for a curve with one time sample matching the length-1 grid, the
temporal step is the identity (the spatially resampled rows are returned
unchanged in time); and when the target spatial positions are the
curve's own field-aligned coordinate, the quantity is returned entirely
unchanged. -/
theorem C7_static_interpolation_identity (loop : LoopHydro) (q : String) (t : ℚ)
    (htime : loop.time = [t])
    (hs : List.Pairwise (fun a b : ℚ => a < b) loop.sCoord)
    (hrows : ∀ row ∈ (loop.quantity q).rows, row.length = loop.sCoord.length) :
    (∀ interpS, interpolate [t] loop q interpS =
      .ok ⟨spatialResample loop.sCoord (loop.quantity q).rows interpS,
           (loop.quantity q).unit⟩)
    ∧ interpolate [t] loop q loop.sCoord = .ok (loop.quantity q) := by
  have hok : ∀ interpS, interpolate [t] loop q interpS =
      .ok ⟨spatialResample loop.sCoord (loop.quantity q).rows interpS,
           (loop.quantity q).unit⟩ := by
    intro interpS
    simp only [interpolate, htime]
    rw [if_pos]
    simp
  refine ⟨hok, ?_⟩
  rw [hok loop.sCoord, spatialResample_self loop.sCoord (loop.quantity q).rows hs hrows]

/-- Witness for C7: a static curve with time [5], field-aligned coordinate
[0, 1, 2] and one quantity row [1, 2, 3]; interpolating at the curve's
own coordinate with grid [5] returns the quantity unchanged. -/
theorem C7_static_interpolation_identity_witness :
    interpolate [5] ⟨[0, 1, 2], [5], fun _ => ⟨[[1, 2, 3]], "K"⟩⟩ "density" [0, 1, 2]
      = .ok ⟨[[1, 2, 3]], "K"⟩ :=
  (C7_static_interpolation_identity ⟨[0, 1, 2], [5], fun _ => ⟨[[1, 2, 3]], "K"⟩⟩
    "density" 5 rfl (by decide) (by decide)).2

/-!
### The shared counts store (`InstrumentBase.commit`, `write_to_hdf5`)

A dataset of the HDF5 counts file is a (T, N) array of values, indexed
by time row and global sample column, together with its attributes; the
only attribute the pipeline uses is the unit, absent until first
written.  The store maps dataset names to datasets.
-/

/-- One named dataset of the counts store. -/
structure Dset where
  data : ℕ → ℕ → ℚ
  unit : Option String

/-- An interpolated quantity ready to be committed: the (T, w) value
array (y.value), its column count w = y.shape[1], and its physical
unit (y.unit). -/
structure CommitValue where
  values : ℕ → ℕ → ℚ
  width : ℕ
  unit : String

/-- Embedding of the static method `InstrumentBase.commit(y, dset,
start_index)`: record y's unit as the dataset's unit attribute only when
no unit is recorded yet, then write y into all time rows of the columns
[start_index, start_index + y.shape[1]). -/
def commit (y : CommitValue) (dset : Dset) (startIndex : ℕ) : Dset where
  unit :=
    match dset.unit with
    | none => some y.unit
    | some u => some u
  data := fun ti c =>
    if startIndex ≤ c ∧ c < startIndex + y.width then y.values ti (c - startIndex)
    else dset.data ti c

/-- The counts store of one instrument: its named datasets. -/
def Store := String → Dset

/-- One write of an interpolated quantity for one curve into a named
dataset of the store, as performed (under the lock) by write_to_hdf5 in
the concurrent scheduler and inline by the serial scheduler. -/
structure WriteTask where
  dset : String
  start : ℕ
  value : CommitValue

/-- Apply one write task to the store: commit into the named dataset,
leave every other dataset alone. -/
def applyTask (store : Store) (task : WriteTask) : Store :=
  fun n => if n = task.dset then commit task.value (store n) task.start else store n

/-- The lock name that `InstrumentBase.write_to_hdf5` acquires before a
write to the dataset dsetName of the store of the instrument named
instrName: distributed.Lock of the string hdf5_ followed by self.name.
The dataset name does not enter the key. -/
def writeLockName (instrName dsetName : String) : String :=
  "hdf5_" ++ instrName

/-- Embedding of `InstrumentBase.write_to_hdf5(value, start_index,
dset_name)`: the name of the lock acquired, and the store transition (the
commit, including any first-write unit assignment) performed while the
lock is held. -/
def writeToHdf5 (instrName : String) (store : Store) (value : CommitValue)
    (startIndex : ℕ) (dsetName : String) : String × Store :=
  (writeLockName instrName dsetName, applyTask store ⟨dsetName, startIndex, value⟩)

/-- C2 counterexample: the claim says writes to two different datasets of
one instrument's store are guarded by two distinct locks; in the code the
lock key is hdf5_ + instrument name, so the density and velocity_x
datasets of the AIA store share one lock. -/
theorem C2_per_dataset_lock_counterexample :
    writeLockName "AIA" "density" = writeLockName "AIA" "velocity_x"
    ∧ "density" ≠ "velocity_x" := by
  constructor
  · rfl
  · decide

/-- C2 (amended): every write to an instrument's store — including the
first-write unit assignment, which commit performs while the lock is
held — is serialized by one mutual-exclusion lock scoped to the
instrument (key hdf5_ + instrument name), shared by all datasets of that
store.  Writes to the same dataset therefore never interleave, but
writes to different datasets of the same instrument are serialized too;
only writes to stores of differently named instruments use different
locks. -/
theorem C2_instrument_scoped_lock :
    (∀ i d1 d2 : String, writeLockName i d1 = writeLockName i d2)
    ∧ (∀ i j d e : String, writeLockName i d = writeLockName j e ↔ i = j)
    ∧ (∀ i dsetName s v k, (writeToHdf5 i s v k dsetName).1 = writeLockName i dsetName
        ∧ (writeToHdf5 i s v k dsetName).2 dsetName = commit v (s dsetName) k) := by
  refine ⟨fun i d1 d2 => rfl, fun i j d e => ?_, fun i d s v k => ⟨rfl, ?_⟩⟩
  · constructor
    · intro h
      have hdata : ("hdf5_" ++ i).data = ("hdf5_" ++ j).data := by
        rw [show ("hdf5_" ++ i) = writeLockName i d from rfl,
            show ("hdf5_" ++ j) = writeLockName j e from rfl, h]
      rw [String.data_append, String.data_append] at hdata
      have hij := List.append_cancel_left hdata
      cases i
      cases j
      simp only at hij
      rw [hij]
    · intro h
      rw [h]
      rfl
  · simp [writeToHdf5, applyTask]

/-- The error the specification prescribes for a unit conflict on a
dataset write. -/
inductive ConfigurationError where
  | conflictingUnit
deriving DecidableEq

/-- The store write rule as the specification words it (for comparison
with commit, which is what the code implements): record the unit on first
write; fail with a ConfigurationError when the supplied unit conflicts
with the already-recorded one. -/
def commitSpec (y : CommitValue) (dset : Dset) (startIndex : ℕ) :
    Except ConfigurationError Dset :=
  let written : ℕ → ℕ → ℚ := fun ti c =>
    if startIndex ≤ c ∧ c < startIndex + y.width then y.values ti (c - startIndex)
    else dset.data ti c
  match dset.unit with
  | none => .ok ⟨written, some y.unit⟩
  | some u => if u = y.unit then .ok ⟨written, some u⟩ else .error .conflictingUnit

/-- C4 counterexample: committing a value carrying unit cm into a dataset
whose recorded unit is K must, per the claim, fail with a
ConfigurationError (as commitSpec does); the code's commit instead keeps
the recorded unit K and writes the data anyway — it has no failure path
at all. -/
theorem C4_unit_conflict_counterexample :
    commitSpec ⟨fun _ _ => 7, 1, "cm"⟩ ⟨fun _ _ => 0, some "K"⟩ 0
      = .error .conflictingUnit
    ∧ (commit ⟨fun _ _ => 7, 1, "cm"⟩ ⟨fun _ _ => 0, some "K"⟩ 0).unit = some "K"
    ∧ (commit ⟨fun _ _ => 7, 1, "cm"⟩ ⟨fun _ _ => 0, some "K"⟩ 0).data 0 0 = 7 := by
  refine ⟨?_, rfl, ?_⟩
  · rfl
  · show (if 0 ≤ 0 ∧ 0 < 0 + 1 then (7 : ℚ) else 0) = 7
    rw [if_pos (by omega)]

/-- C4 (amended): on every write of a quantity into the store, if the
target dataset has no unit recorded yet the supplied unit is recorded at
that first write; if a unit is already recorded it is kept and the
supplied unit is silently ignored — even when it conflicts — and the
data write proceeds; no error is raised (commit has no failure path). -/
theorem C4_unit_first_write (y : CommitValue) (d : Dset) (k : ℕ) :
    (d.unit = none → (commit y d k).unit = some y.unit)
    ∧ (∀ u, d.unit = some u → (commit y d k).unit = some u)
    ∧ (∀ ti c, k ≤ c → c < k + y.width →
        (commit y d k).data ti c = y.values ti (c - k)) := by
  refine ⟨fun h => ?_, fun u h => ?_, fun ti c h1 h2 => ?_⟩
  · simp [commit, h]
  · simp [commit, h]
  · simp [commit, h1, h2]

/-- Witness for C4 (amended): a first write to a unitless dataset records
the unit cm; a write of a cm-tagged value into a dataset with recorded
unit K keeps K and the value still lands in the window. -/
theorem C4_unit_first_write_witness :
    (commit ⟨fun _ _ => 7, 1, "cm"⟩ ⟨fun _ _ => 0, none⟩ 0).unit = some "cm"
    ∧ (commit ⟨fun _ _ => 7, 1, "cm"⟩ ⟨fun _ _ => 0, some "K"⟩ 2).unit = some "K"
    ∧ (commit ⟨fun _ _ => 7, 1, "cm"⟩ ⟨fun _ _ => 0, some "K"⟩ 2).data 0 2 = 7 :=
  ⟨(C4_unit_first_write ⟨fun _ _ => 7, 1, "cm"⟩ ⟨fun _ _ => 0, none⟩ 0).1 rfl,
   (C4_unit_first_write ⟨fun _ _ => 7, 1, "cm"⟩ ⟨fun _ _ => 0, some "K"⟩ 2).2.1 "K" rfl,
   by
    have h := (C4_unit_first_write ⟨fun _ _ => 7, 1, "cm"⟩
      ⟨fun _ _ => 0, some "K"⟩ 2).2.2 0 2 (by decide) (by decide)
    simpa using h⟩

/-- C9: committing one curve's interpolated values into a dataset
modifies only the columns [start_index, start_index + w) where w is the
value's column count; every column outside that window, and any unit
attribute already recorded on the dataset, are left unchanged. -/
theorem C9_commit_frame (y : CommitValue) (d : Dset) (k : ℕ) :
    (∀ ti c, c < k ∨ k + y.width ≤ c → (commit y d k).data ti c = d.data ti c)
    ∧ (∀ u, d.unit = some u → (commit y d k).unit = some u) := by
  refine ⟨fun ti c h => ?_, fun u h => ?_⟩
  · have : ¬(k ≤ c ∧ c < k + y.width) := by omega
    simp [commit, this]
  · simp [commit, h]

/-- Witness for C9: a width-2 write at start index 1 leaves column 0 and
column 3 and the recorded unit G unchanged. -/
theorem C9_commit_frame_witness :
    (commit ⟨fun _ _ => 7, 2, "K"⟩ ⟨fun _ _ => 3, some "G"⟩ 1).data 0 0 = 3
    ∧ (commit ⟨fun _ _ => 7, 2, "K"⟩ ⟨fun _ _ => 3, some "G"⟩ 1).data 0 3 = 3
    ∧ (commit ⟨fun _ _ => 7, 2, "K"⟩ ⟨fun _ _ => 3, some "G"⟩ 1).unit = some "G" :=
  ⟨(C9_commit_frame ⟨fun _ _ => 7, 2, "K"⟩ ⟨fun _ _ => 3, some "G"⟩ 1).1 0 0
     (Or.inl (by decide)),
   (C9_commit_frame ⟨fun _ _ => 7, 2, "K"⟩ ⟨fun _ _ => 3, some "G"⟩ 1).1 0 3
     (Or.inr (by decide)),
   (C9_commit_frame ⟨fun _ _ => 7, 2, "K"⟩ ⟨fun _ _ => 3, some "G"⟩ 1).2 "G" rfl⟩

/-!
### Scheduling (`ObserverSerial.flatten_detector_counts`,
`ObserverParallel.flatten_detector_counts`)

The serial scheduler walks the loops in input order with a running
start_index, committing each of the six hydrodynamic quantities for one
loop before moving to the next.  The concurrent scheduler submits one
(quantity, loop) task per pair, quantity-major, with start indices
np.insert(cumsum(widths)[:-1], 0, 0), and the tasks may complete in any
order.
-/

/-- Two write tasks whose column windows do not overlap. -/
def windowDisjoint (t1 t2 : WriteTask) : Prop :=
  t1.start + t1.value.width ≤ t2.start ∨ t2.start + t2.value.width ≤ t1.start

/-- Two write tasks whose effects on the store commute: equal, or aimed at
different datasets, or aimed at the same dataset through disjoint column
windows with the same unit tag. -/
def compatTasks (t1 t2 : WriteTask) : Prop :=
  t1 = t2 ∨ t1.dset ≠ t2.dset ∨ (windowDisjoint t1 t2 ∧ t1.value.unit = t2.value.unit)

theorem Dset.ext_of (a b : Dset) (h1 : a.data = b.data) (h2 : a.unit = b.unit) :
    a = b := by
  cases a
  cases b
  simp_all

/-- Two commits into one dataset commute when their column windows are
disjoint and they carry the same unit. -/
theorem commit_comm (d : Dset) (y1 y2 : CommitValue) (k1 k2 : ℕ)
    (hdisj : k1 + y1.width ≤ k2 ∨ k2 + y2.width ≤ k1) (hunit : y1.unit = y2.unit) :
    commit y2 (commit y1 d k1) k2 = commit y1 (commit y2 d k2) k1 := by
  apply Dset.ext_of
  · funext ti c
    simp only [commit]
    split_ifs <;> first | rfl | omega
  · simp only [commit]
    cases d.unit <;> simp [hunit]

theorem applyTask_comm (s : Store) (t1 t2 : WriteTask) (h : compatTasks t1 t2) :
    applyTask (applyTask s t1) t2 = applyTask (applyTask s t2) t1 := by
  rcases h with rfl | hne | ⟨hdisj, hunit⟩
  · rfl
  · funext n
    simp only [applyTask]
    split_ifs with h1 h2
    · exact absurd (h2.symm.trans h1) hne
    · rfl
    · rfl
    · rfl
  · funext n
    simp only [applyTask]
    split_ifs with h1 h2
    · exact commit_comm (s n) t1.value t2.value t1.start t2.start hdisj hunit
    · rfl
    · rfl
    · rfl

/-- Running a list of write tasks over the store, in list order. -/
def runTasks (store : Store) (tasks : List WriteTask) : Store :=
  tasks.foldl applyTask store

/-- The inputs of the flatten stage for one loop: the width of its
reserved column window (interp_s.shape[0]) and, per quantity name, the
interpolated (T, width) value array and its unit. -/
structure FlattenLoop where
  width : ℕ
  values : String → ℕ → ℕ → ℚ
  unit : String → String

/-- The write task for one (quantity, loop) pair at the loop's start
index: commit the interpolated quantity into the dataset named after the
quantity. -/
def mkTask (l : FlattenLoop) (off : ℕ) (q : String) : WriteTask :=
  ⟨q, off, ⟨l.values q, l.width, l.unit q⟩⟩

/-- The six hydrodynamic quantities both schedulers interpolate. -/
def hydroQuantities : List String :=
  ["velocity_x", "velocity_y", "velocity_z", "electron_temperature",
   "ion_temperature", "density"]

/-- The serial schedule: loops outermost in input order with a running
start_index, the six quantities within each loop. -/
def serialTasks : ℕ → List FlattenLoop → List WriteTask
  | _, [] => []
  | base, l :: ls => hydroQuantities.map (mkTask l base) ++ serialTasks (base + l.width) ls

/-- Running cumulative sums: np.cumsum. -/
def cumsumFrom (acc : ℕ) : List ℕ → List ℕ
  | [] => []
  | x :: xs => (acc + x) :: cumsumFrom (acc + x) xs

/-- start_indices = np.insert(np.array(widths).cumsum()[:-1], 0, 0). -/
def startIndices (ws : List ℕ) : List ℕ :=
  0 :: (cumsumFrom 0 ws).dropLast

/-- The concurrent schedule's task set: quantity-major, one task per
(quantity, loop) pair, each loop paired with its start index. -/
def parallelTasks (ls : List FlattenLoop) : List WriteTask :=
  hydroQuantities.flatMap (fun q =>
    (ls.zip (startIndices (ls.map FlattenLoop.width))).map (fun p => mkTask p.1 p.2 q))

/-- Loops paired with the serial scheduler's running start index. -/
def zipOffsets : ℕ → List FlattenLoop → List (FlattenLoop × ℕ)
  | _, [] => []
  | base, l :: ls => (l, base) :: zipOffsets (base + l.width) ls

/-- The parallel scheduler's start_indices agree with the serial
scheduler's running start_index. -/
theorem zip_startIndices_eq_zipOffsets (ls : List FlattenLoop) :
    ls.zip (startIndices (ls.map FlattenLoop.width)) = zipOffsets 0 ls := by
  suffices h : ∀ (base : ℕ) (ls : List FlattenLoop),
      ls.zip (base :: (cumsumFrom base (ls.map FlattenLoop.width)).dropLast)
        = zipOffsets base ls from h 0 ls
  intro base ls
  induction ls generalizing base with
  | nil => rfl
  | cons l ls ih =>
    cases ls with
    | nil => rfl
    | cons l2 ls2 =>
      show (l, base) :: _ = (l, base) :: _
      exact congrArg _ (ih (base + l.width))

theorem serialTasks_eq_flatMap (base : ℕ) (ls : List FlattenLoop) :
    serialTasks base ls
      = (zipOffsets base ls).flatMap (fun p => hydroQuantities.map (mkTask p.1 p.2)) := by
  induction ls generalizing base with
  | nil => rfl
  | cons l ls ih =>
    simp only [serialTasks, zipOffsets, List.flatMap_cons]
    rw [ih]

theorem flatMap_nil_fun {β γ : Type} (bs : List β) :
    (bs.flatMap fun _ => ([] : List γ)) = [] := by
  induction bs with
  | nil => rfl
  | cons b bs ih => simp [List.flatMap_cons, ih]

theorem flatMap_cons_perm {β γ : Type} (bs : List β) (g : β → γ) (h : β → List γ) :
    (bs.flatMap fun b => g b :: h b).Perm (bs.map g ++ bs.flatMap h) := by
  induction bs with
  | nil => rfl
  | cons b bs ih =>
    simp only [List.flatMap_cons, List.map_cons, List.cons_append]
    refine List.Perm.cons _ ?_
    have h2 : (h b ++ bs.flatMap fun b => g b :: h b).Perm
        (h b ++ (bs.map g ++ bs.flatMap h)) := ih.append_left (h b)
    have h3 : (h b ++ (bs.map g ++ bs.flatMap h)).Perm
        (bs.map g ++ (h b ++ bs.flatMap h)) := by
      rw [← List.append_assoc, ← List.append_assoc]
      exact List.perm_append_comm.append_right _
    exact h2.trans h3

/-- Iterating a block of inner writes per outer element, outer-major,
is a permutation of iterating them inner-major. -/
theorem flatMap_map_swap_perm {α β γ : Type} (as : List α) (bs : List β) (f : α → β → γ) :
    (as.flatMap fun a => bs.map (f a)).Perm
      (bs.flatMap fun b => as.map (fun a => f a b)) := by
  induction as with
  | nil =>
    simp only [List.flatMap_nil, List.map_nil, flatMap_nil_fun]
    exact List.Perm.refl _
  | cons a as ih =>
    simp only [List.flatMap_cons, List.map_cons]
    have h1 := ih.append_left (bs.map (f a))
    exact h1.trans (flatMap_cons_perm bs (f a) (fun b => as.map (fun a => f a b))).symm

theorem mem_serialTasks {t : WriteTask} :
    ∀ (base : ℕ) (ls : List FlattenLoop), t ∈ serialTasks base ls →
      ∃ l ∈ ls, ∃ q ∈ hydroQuantities, t = mkTask l t.start q ∧ base ≤ t.start := by
  intro base ls
  induction ls generalizing base with
  | nil => intro h; simp [serialTasks] at h
  | cons l ls ih =>
    intro h
    rw [serialTasks, List.mem_append] at h
    rcases h with h | h
    · obtain ⟨q, hq, heq⟩ := List.mem_map.mp h
      have hstart : t.start = base := by rw [← heq]; rfl
      exact ⟨l, List.mem_cons_self _ _, q, hq, by rw [hstart, ← heq], le_of_eq hstart.symm⟩
    · obtain ⟨l2, hl2, q, hq, ht, hge⟩ := ih (base + l.width) h
      exact ⟨l2, List.mem_cons_of_mem _ hl2, q, hq, ht, by omega⟩

/-- Any two tasks of the serial schedule commute, provided every loop
tags a given quantity with the same unit (which loop.py guarantees:
each quantity property carries a fixed physical unit). -/
theorem serialTasks_compat (ls : List FlattenLoop)
    (hunit : ∀ l1 ∈ ls, ∀ l2 ∈ ls, ∀ q, l1.unit q = l2.unit q) :
    ∀ base, ∀ t1 ∈ serialTasks base ls, ∀ t2 ∈ serialTasks base ls,
      compatTasks t1 t2 := by
  induction ls with
  | nil => intro base t1 h1; simp [serialTasks] at h1
  | cons l ls ih =>
    intro base t1 h1 t2 h2
    have hunitTail : ∀ l1 ∈ ls, ∀ l2 ∈ ls, ∀ q, l1.unit q = l2.unit q :=
      fun l1 hl1 l2 hl2 q =>
        hunit l1 (List.mem_cons_of_mem _ hl1) l2 (List.mem_cons_of_mem _ hl2) q
    rw [serialTasks, List.mem_append] at h1 h2
    rcases h1 with h1 | h1 <;> rcases h2 with h2 | h2
    · obtain ⟨q1, hq1, rfl⟩ := List.mem_map.mp h1
      obtain ⟨q2, hq2, rfl⟩ := List.mem_map.mp h2
      by_cases hq : q1 = q2
      · subst hq; left; rfl
      · right; left; simpa [mkTask] using hq
    · obtain ⟨q1, hq1, rfl⟩ := List.mem_map.mp h1
      obtain ⟨l2, hl2, q2, hq2, ht2, hge⟩ := mem_serialTasks (base + l.width) ls h2
      by_cases hd : (mkTask l base q1).dset = t2.dset
      · right; right
        refine ⟨Or.inl ?_, ?_⟩
        · show base + l.width ≤ t2.start
          exact hge
        · have hq12 : q1 = q2 := by
            rw [ht2] at hd
            simpa [mkTask] using hd
          rw [ht2]
          show l.unit q1 = l2.unit q2
          rw [hq12]
          exact hunit l (List.mem_cons_self _ _) l2 (List.mem_cons_of_mem _ hl2) q2
      · right; left; exact hd
    · obtain ⟨q2, hq2, rfl⟩ := List.mem_map.mp h2
      obtain ⟨l1, hl1, q1, hq1, ht1, hge⟩ := mem_serialTasks (base + l.width) ls h1
      by_cases hd : t1.dset = (mkTask l base q2).dset
      · right; right
        refine ⟨Or.inr ?_, ?_⟩
        · show base + l.width ≤ t1.start
          exact hge
        · have hq12 : q1 = q2 := by
            rw [ht1] at hd
            simpa [mkTask] using hd
          rw [ht1]
          show l1.unit q1 = l.unit q2
          rw [hq12]
          exact hunit l1 (List.mem_cons_of_mem _ hl1) l (List.mem_cons_self _ _) q2
      · right; left; exact hd
    · exact ih hunitTail (base + l.width) t1 h1 t2 h2

/-- C3: given identical inputs (and the program invariant that every
loop tags a given quantity with the same physical unit, enforced by the
unit coercions on the Loop quantity properties), the concurrent task set
is a permutation of the serial schedule, and every completion order of
the concurrent tasks produces exactly the store the serial scheduler
produces — the stored quantity datasets are bit-identical. -/
theorem C3_write_order_independence (ls : List FlattenLoop) (s0 : Store)
    (hunit : ∀ l1 ∈ ls, ∀ l2 ∈ ls, ∀ q, l1.unit q = l2.unit q) :
    (parallelTasks ls).Perm (serialTasks 0 ls)
    ∧ ∀ order : List WriteTask, order.Perm (serialTasks 0 ls) →
        runTasks s0 order = runTasks s0 (serialTasks 0 ls) := by
  have hperm : (parallelTasks ls).Perm (serialTasks 0 ls) := by
    rw [parallelTasks, zip_startIndices_eq_zipOffsets, serialTasks_eq_flatMap]
    exact (flatMap_map_swap_perm (zipOffsets 0 ls) hydroQuantities
      (fun p q => mkTask p.1 p.2 q)).symm
  refine ⟨hperm, ?_⟩
  intro order hord
  have hcompat := serialTasks_compat ls hunit 0
  exact hord.foldl_eq'
    (fun x hx y hy z =>
      applyTask_comm z x y (hcompat x (hord.subset hx) y (hord.subset hy))) s0

/-- Witness for C3: two loops of widths 1 and 2, all quantities tagged K;
running the concurrent task set (one completion order of it) gives the
same store as the serial schedule. -/
theorem C3_write_order_independence_witness :
    runTasks (fun _ => ⟨fun _ _ => 0, none⟩)
        (parallelTasks [⟨1, fun _ _ _ => 1, fun _ => "K"⟩, ⟨2, fun _ _ _ => 2, fun _ => "K"⟩])
      = runTasks (fun _ => ⟨fun _ _ => 0, none⟩)
        (serialTasks 0 [⟨1, fun _ _ _ => 1, fun _ => "K"⟩, ⟨2, fun _ _ _ => 2, fun _ => "K"⟩]) := by
  have h := C3_write_order_independence
    [⟨1, fun _ _ _ => 1, fun _ => "K"⟩, ⟨2, fun _ _ _ => 2, fun _ => "K"⟩]
    (fun _ => ⟨fun _ _ => 0, none⟩)
    (by
      intro l1 h1 l2 h2 q
      rcases List.mem_cons.mp h1 with rfl | h1 <;>
        rcases List.mem_cons.mp h2 with rfl | h2 <;>
          simp_all [List.mem_singleton])
  exact h.2 _ h.1

/-!
### Binning (`InstrumentBase.generic_2d_histogram`)

np.histogramdd over the first two coordinate axes: sample counts hc and
weighted sums h over identical bin edges, then h /= np.where(hc == 0, 1,
hc).  An in-range sample on an axis with nb bins over [lo, hi] falls in
bin floor((x - lo)·nb/(hi - lo)), except that the right edge of the last
bin is inclusive; samples outside [lo, hi] are dropped.
-/

/-- The bin index one axis of np.histogramdd assigns to coordinate x. -/
def binIndex (nb : ℕ) (lo hi x : ℚ) : Option ℕ :=
  if lo ≤ x ∧ x ≤ hi then
    some (min (⌊(x - lo) * nb / (hi - lo)⌋.toNat) (nb - 1))
  else none

/-- The 2-D bin of a projected sample point, or none when the point falls
outside the bin range on either axis. -/
def bin2d (nbx nby : ℕ) (rx ry : ℚ × ℚ) (p : ℚ × ℚ) : Option (ℕ × ℕ) :=
  match binIndex nbx rx.1 rx.2 p.1, binIndex nby ry.1 ry.2 p.2 with
  | some i, some j => some (i, j)
  | _, _ => none

/-- hc: the unweighted sample count of one bin (weights ignored). -/
def histCount (pts : List ((ℚ × ℚ) × ℚ)) (nbx nby : ℕ) (rx ry : ℚ × ℚ)
    (b : ℕ × ℕ) : ℕ :=
  pts.countP (fun pw => decide (bin2d nbx nby rx ry pw.1 = some b))

/-- h: the summed weight of one bin. -/
def histWeight (pts : List ((ℚ × ℚ) × ℚ)) (nbx nby : ℕ) (rx ry : ℚ × ℚ)
    (b : ℕ × ℕ) : ℚ :=
  ((pts.filter (fun pw => decide (bin2d nbx nby rx ry pw.1 = some b))).map
    Prod.snd).sum

/-- Embedding of `InstrumentBase.generic_2d_histogram`: one bin of the
binned image, h[bin] / where(hc[bin] == 0, 1, hc[bin]). -/
def generic2dHistogram (pts : List ((ℚ × ℚ) × ℚ)) (nbx nby : ℕ) (rx ry : ℚ × ℚ)
    (b : ℕ × ℕ) : ℚ :=
  histWeight pts nbx nby rx ry b
    / (if histCount pts nbx nby rx ry b = 0 then 1 else (histCount pts nbx nby rx ry b : ℚ))

theorem sum_map_snd_of_ones {α : Type} (l : List (α × ℚ)) (h : ∀ x ∈ l, x.2 = 1) :
    (l.map Prod.snd).sum = l.length := by
  induction l with
  | nil => rfl
  | cons x xs ih =>
    simp only [List.map_cons, List.sum_cons, List.length_cons]
    rw [h x (List.mem_cons_self _ _), ih (fun y hy => h y (List.mem_cons_of_mem _ hy))]
    push_cast
    ring

/-- C5: each bin of the binned image equals the summed weight divided by
the unweighted sample count when the count is positive, and exactly 0
when the count is zero (the summed weight of an empty bin is 0 and the
divisor is replaced by 1) — never an undefined value; with all weights
equal to 1, every occupied bin equals 1 and every empty bin equals 0. -/
theorem C5_histogram_mean (pts : List ((ℚ × ℚ) × ℚ)) (nbx nby : ℕ) (rx ry : ℚ × ℚ)
    (b : ℕ × ℕ) :
    (histCount pts nbx nby rx ry b = 0 → generic2dHistogram pts nbx nby rx ry b = 0)
    ∧ (0 < histCount pts nbx nby rx ry b →
        generic2dHistogram pts nbx nby rx ry b
          = histWeight pts nbx nby rx ry b / (histCount pts nbx nby rx ry b : ℚ))
    ∧ ((∀ pw ∈ pts, pw.2 = 1) →
        generic2dHistogram pts nbx nby rx ry b
          = if 0 < histCount pts nbx nby rx ry b then 1 else 0) := by
  refine ⟨fun h0 => ?_, fun hpos => ?_, fun hones => ?_⟩
  · have hw0 : histWeight pts nbx nby rx ry b = 0 := by
      have hnil : pts.filter (fun pw => decide (bin2d nbx nby rx ry pw.1 = some b)) = [] := by
        rw [List.filter_eq_nil_iff]
        rw [histCount, List.countP_eq_zero] at h0
        exact h0
      rw [histWeight, hnil]
      rfl
    rw [generic2dHistogram, hw0, zero_div]
  · rw [generic2dHistogram, if_neg (by omega)]
  · have hw : histWeight pts nbx nby rx ry b = (histCount pts nbx nby rx ry b : ℚ) := by
      rw [histWeight, histCount, List.countP_eq_length_filter]
      exact sum_map_snd_of_ones _
        (fun x hx => hones x (List.mem_of_mem_filter hx))
    by_cases h0 : histCount pts nbx nby rx ry b = 0
    · rw [generic2dHistogram, hw, h0, if_pos rfl]
      simp
    · rw [generic2dHistogram, hw, if_neg h0, if_pos (by omega),
        div_self (by exact_mod_cast h0)]

/-- Witness for C5: two unit-weight samples; the binned value at bin
(0, 0) is 1 when the bin is occupied and 0 when it is empty, as the
all-weights-one case of the theorem states. -/
theorem C5_histogram_mean_witness :
    (∀ pw ∈ [(((0 : ℚ), (0 : ℚ)), (1 : ℚ)), (((3 : ℚ), (1 : ℚ)), (1 : ℚ))], pw.2 = 1)
    ∧ generic2dHistogram [(((0 : ℚ), (0 : ℚ)), 1), (((3 : ℚ), (1 : ℚ)), 1)] 2 2 (0, 4) (0, 2) (0, 0)
      = if 0 < histCount [(((0 : ℚ), (0 : ℚ)), 1), (((3 : ℚ), (1 : ℚ)), 1)] 2 2 (0, 4) (0, 2) (0, 0)
        then 1 else 0 :=
  ⟨by decide,
   (C5_histogram_mean [(((0 : ℚ), (0 : ℚ)), 1), (((3 : ℚ), (1 : ℚ)), 1)] 2 2 (0, 4) (0, 2)
     (0, 0)).2.2 (by decide)⟩

/-!
### Schema creation (`InstrumentBase.build_detector_file`,
`ObserverSerial.build_detector_files`)

The counts file is opened in append mode; the time dataset, each
quantity dataset and the coordinates dataset are created only when the
name is not yet in the file.  A name may be absent, so the file is
modelled as a partial map from names to datasets.
-/

/-- An HDF5 counts file: named datasets, possibly absent. -/
def StoreFile := String → Option Dset

/-- Create the named dataset only when the name is not in the file (the
pattern if name not in hf: hf.create_dataset(name, ...)). -/
def ensureDataset (hf : StoreFile) (name : String) (d : Dset) : StoreFile :=
  match hf name with
  | some _ => hf
  | none => fun n => if n = name then some d else hf n

/-- The quantity datasets `build_detector_file` allocates, plus any
additional_fields. -/
def datasetNames (additional : List String) : List String :=
  ["density", "electron_temperature", "ion_temperature", "velocity_x",
   "velocity_y", "velocity_z"] ++ additional

/-- Embedding of `InstrumentBase.build_detector_file`: create the time
dataset and each missing quantity dataset (fresh datasets carry no unit
attribute yet). -/
def buildDetectorFile (timeDset : Dset) (additional : List String) (hf : StoreFile) :
    StoreFile :=
  (datasetNames additional).foldl
    (fun h dn => ensureDataset h dn ⟨fun _ _ => 0, none⟩)
    (ensureDataset hf "time" timeDset)

/-- Embedding of the per-instrument body of
`ObserverSerial.build_detector_files`: build the detector file, then
create the coordinates dataset when absent. -/
def buildDetectorFiles (timeDset coordDset : Dset) (additional : List String)
    (hf : StoreFile) : StoreFile :=
  ensureDataset (buildDetectorFile timeDset additional hf) "coordinates" coordDset

theorem ensureDataset_preserves (hf : StoreFile) (n : String) (d : Dset)
    (m : String) (y : Dset) (h : hf m = some y) :
    ensureDataset hf n d m = some y := by
  unfold ensureDataset
  cases hn : hf n with
  | some _ => exact h
  | none =>
    by_cases hmn : m = n
    · rw [hmn] at h
      rw [h] at hn
      exact absurd hn (by simp)
    · simp only [if_neg hmn]
      exact h

theorem ensureDataset_id_of_some (hf : StoreFile) (n : String) (d : Dset)
    (h : ∃ y, hf n = some y) : ensureDataset hf n d = hf := by
  obtain ⟨y, hy⟩ := h
  unfold ensureDataset
  rw [hy]

theorem ensureDataset_mem (hf : StoreFile) (n : String) (d : Dset) :
    ∃ y, ensureDataset hf n d n = some y := by
  unfold ensureDataset
  cases hn : hf n with
  | some y => exact ⟨y, hn⟩
  | none => exact ⟨d, by simp⟩

theorem ensureDataset_mem_other (hf : StoreFile) (n : String) (d : Dset)
    (m : String) (h : ∃ y, hf m = some y) : ∃ y, ensureDataset hf n d m = some y := by
  obtain ⟨y, hy⟩ := h
  exact ⟨y, ensureDataset_preserves hf n d m y hy⟩

theorem foldl_ensure_preserves (names : List String) (hf : StoreFile)
    (m : String) (y : Dset) (h : hf m = some y) :
    (names.foldl (fun h dn => ensureDataset h dn ⟨fun _ _ => 0, none⟩) hf) m = some y := by
  induction names generalizing hf with
  | nil => exact h
  | cons n ns ih =>
    exact ih _ (ensureDataset_preserves hf n _ m y h)

theorem foldl_ensure_mem (names : List String) (hf : StoreFile)
    (m : String) (h : ∃ y, hf m = some y) :
    ∃ y, (names.foldl (fun h dn => ensureDataset h dn ⟨fun _ _ => 0, none⟩) hf) m = some y := by
  obtain ⟨y, hy⟩ := h
  exact ⟨y, foldl_ensure_preserves names hf m y hy⟩

theorem foldl_ensure_mem_all (names : List String) (hf : StoreFile) :
    ∀ dn ∈ names,
      ∃ y, (names.foldl (fun h dn => ensureDataset h dn ⟨fun _ _ => 0, none⟩) hf) dn = some y := by
  induction names generalizing hf with
  | nil => intro dn h; exact absurd h (List.not_mem_nil dn)
  | cons n ns ih =>
    intro dn h
    rcases List.mem_cons.mp h with rfl | h
    · exact foldl_ensure_mem ns _ dn (ensureDataset_mem hf dn _)
    · exact ih _ dn h

theorem foldl_ensure_id (names : List String) (hf : StoreFile)
    (h : ∀ dn ∈ names, ∃ y, hf dn = some y) :
    names.foldl (fun h dn => ensureDataset h dn ⟨fun _ _ => 0, none⟩) hf = hf := by
  induction names with
  | nil => rfl
  | cons n ns ih =>
    have h1 : ensureDataset hf n ⟨fun _ _ => 0, none⟩ = hf :=
      ensureDataset_id_of_some hf n _ (h n (List.mem_cons_self _ _))
    simp only [List.foldl_cons, h1]
    exact ih (fun dn hdn => h dn (List.mem_cons_of_mem _ hdn))

/-- C8: schema creation leaves every already-existing dataset (time,
coordinates, and each quantity dataset) untouched, and re-invoking it on
a store it has already been run on is a no-op (idempotence). -/
theorem C8_schema_idempotent (timeDset coordDset : Dset) (additional : List String)
    (hf : StoreFile) :
    (∀ name d, hf name = some d →
      buildDetectorFiles timeDset coordDset additional hf name = some d)
    ∧ buildDetectorFiles timeDset coordDset additional
        (buildDetectorFiles timeDset coordDset additional hf)
      = buildDetectorFiles timeDset coordDset additional hf := by
  constructor
  · intro name d h
    exact ensureDataset_preserves _ "coordinates" coordDset name d
      (foldl_ensure_preserves _ _ name d
        (ensureDataset_preserves hf "time" timeDset name d h))
  · set hf1 := buildDetectorFiles timeDset coordDset additional hf with hdef
    have hpres : ∀ m, (∃ y, (buildDetectorFile timeDset additional hf) m = some y) →
        ∃ y, hf1 m = some y := by
      intro m hm
      exact ensureDataset_mem_other _ "coordinates" coordDset m hm
    have htime : ∃ y, hf1 "time" = some y := by
      apply hpres
      exact foldl_ensure_mem _ _ "time" (ensureDataset_mem hf "time" timeDset)
    have hcoord : ∃ y, hf1 "coordinates" = some y :=
      ensureDataset_mem _ "coordinates" coordDset
    have hquant : ∀ dn ∈ datasetNames additional, ∃ y, hf1 dn = some y := by
      intro dn hdn
      apply hpres
      exact foldl_ensure_mem_all (datasetNames additional) _ dn hdn
    show buildDetectorFiles timeDset coordDset additional hf1 = hf1
    unfold buildDetectorFiles buildDetectorFile
    rw [ensureDataset_id_of_some hf1 "time" timeDset htime,
        foldl_ensure_id _ hf1 hquant,
        ensureDataset_id_of_some hf1 "coordinates" coordDset hcoord]

/-- Witness for C8: a file already holding a time dataset keeps it
unchanged through schema creation. -/
theorem C8_schema_idempotent_witness :
    buildDetectorFiles ⟨fun _ _ => 9, some "s"⟩ ⟨fun _ _ => 0, some "cm"⟩ []
        (fun n => if n = "time" then some ⟨fun _ _ => 5, some "s"⟩ else none) "time"
      = some ⟨fun _ _ => 5, some "s"⟩ :=
  (C8_schema_idempotent ⟨fun _ _ => 9, some "s"⟩ ⟨fun _ _ => 0, some "cm"⟩ []
      (fun n => if n = "time" then some ⟨fun _ _ => 5, some "s"⟩ else none)).1
    "time" ⟨fun _ _ => 5, some "s"⟩ (by simp)

/-!
### Output assembly (`InstrumentBase.make_detector_array`,
`InstrumentBase.make_fits_header`)

The detector bins come from the padded field of view divided by the
pixel resolution, rounded up; the FITS header's numeric fields are
computed from the field of view, the resolution and the bin counts, then
overridden by the instrument subclass's fits_template (empty in the base
class).  Only the numeric header fields enter the claims, so the header
is modelled as a partial map from key to rational value.
-/

/-- The padded field of view in helioprojective coordinates, as computed
by `InstrumentBase._get_fov`. -/
structure FovQ where
  minX : ℚ
  maxX : ℚ
  minY : ℚ
  maxY : ℚ

/-- The x/y/z triple SpatialPair of synthesizAR.util. -/
structure SpatialPairQ where
  x : ℚ
  y : ℚ
  z : ℚ

/-- Embedding of the bin counts of `InstrumentBase.make_detector_array`:
bins_x = ceil(delta_x/resolution.x), bins_y likewise, bins_z their
maximum (np.ceil yields these as floats, carried exactly here). -/
def makeDetectorArrayBins (fov : FovQ) (resX resY : ℚ) : SpatialPairQ :=
  ⟨(⌈(fov.maxX - fov.minX) / resX⌉ : ℤ), (⌈(fov.maxY - fov.minY) / resY⌉ : ℤ),
   max (⌈(fov.maxX - fov.minX) / resX⌉ : ℤ) (⌈(fov.maxY - fov.minY) / resY⌉ : ℤ)⟩

/-- Embedding of the numeric fields of `InstrumentBase.make_fits_header`:
crval at the field-of-view center, cdelt the pixel resolution, crpix =
(bins + 1)/2 per axis; finally fits_header.update(self.fits_template)
lets the template override any key (the base class template is empty). -/
def makeFitsHeader (fov : FovQ) (resX resY : ℚ) (template : List (String × ℚ)) :
    String → Option ℚ :=
  let bins := makeDetectorArrayBins fov resX resY
  let base : String → Option ℚ := fun k =>
    if k = "crval1" then some (fov.minX + (fov.maxX - fov.minX) / 2)
    else if k = "crval2" then some (fov.minY + (fov.maxY - fov.minY) / 2)
    else if k = "cdelt1" then some resX
    else if k = "cdelt2" then some resY
    else if k = "crpix1" then some ((bins.x + 1) / 2)
    else if k = "crpix2" then some ((bins.y + 1) / 2)
    else none
  fun k =>
    match template.reverse.find? (fun kv => decide (kv.1 = k)) with
    | some kv => some kv.2
    | none => base k

/-- C10: the assembled header's reference pixel equals
(bin_count_axis + 1)/2 on each axis (whatever the parity of the bin
counts), provided the instrument's fits_template does not override the
crpix keys (the base template is empty). -/
theorem C10_reference_pixel (fov : FovQ) (resX resY : ℚ) (template : List (String × ℚ))
    (htmpl : ∀ kv ∈ template, kv.1 ≠ "crpix1" ∧ kv.1 ≠ "crpix2") :
    makeFitsHeader fov resX resY template "crpix1"
      = some (((makeDetectorArrayBins fov resX resY).x + 1) / 2)
    ∧ makeFitsHeader fov resX resY template "crpix2"
      = some (((makeDetectorArrayBins fov resX resY).y + 1) / 2) := by
  have hfind1 : template.reverse.find? (fun kv => decide (kv.1 = "crpix1")) = none := by
    rw [List.find?_eq_none]
    intro kv hkv
    simp only [decide_eq_true_eq]
    exact (htmpl kv (List.mem_reverse.mp hkv)).1
  have hfind2 : template.reverse.find? (fun kv => decide (kv.1 = "crpix2")) = none := by
    rw [List.find?_eq_none]
    intro kv hkv
    simp only [decide_eq_true_eq]
    exact (htmpl kv (List.mem_reverse.mp hkv)).2
  constructor
  · show (match template.reverse.find? (fun kv => decide (kv.1 = "crpix1")) with
      | some kv => some kv.2
      | none => _) = _
    rw [hfind1]
    rfl
  · show (match template.reverse.find? (fun kv => decide (kv.1 = "crpix2")) with
      | some kv => some kv.2
      | none => _) = _
    rw [hfind2]
    rfl

/-- Witness for C10: with an empty template, a 4 × 2 unit-resolution
field of view (even bin counts) and a 3-wide one (odd bin count) both
give crpix = (bins + 1)/2. -/
theorem C10_reference_pixel_witness :
    makeFitsHeader ⟨0, 4, 0, 2⟩ 1 1 [] "crpix1"
      = some (((makeDetectorArrayBins ⟨0, 4, 0, 2⟩ 1 1).x + 1) / 2)
    ∧ makeFitsHeader ⟨0, 3, 0, 2⟩ 1 1 [] "crpix2"
      = some (((makeDetectorArrayBins ⟨0, 3, 0, 2⟩ 1 1).y + 1) / 2) :=
  ⟨(C10_reference_pixel ⟨0, 4, 0, 2⟩ 1 1 [] (by decide)).1,
   (C10_reference_pixel ⟨0, 3, 0, 2⟩ 1 1 [] (by decide)).2⟩

end SynthesizAR
